import Mathlib

/-!
Shallow embedding of the sonic backend's fingerprinting and matching core
(`audio-fingerprinter.service.ts`, `song-matcher.service.ts`,
`database.service.ts`, `shazam.service.ts`), together with theorems checking
the natural-language specification against it.

Conventions of the embedding:
- JavaScript numbers are modelled as exact rationals (`ℚ`); the `>>> 0`
  coercion is modelled as `Int.emod` by `2 ^ 32`.
- `Array.prototype.sort` (stable since ES2019) is modelled by a stable
  insertion sort `insertionSort`; for a consistent comparator the output of a
  stable sort is uniquely determined, so this is faithful.
- JavaScript `Map` objects (which preserve key insertion order) are modelled
  as association lists with `assocSet` / `assocGet`.
- Code that can throw is modelled in `Except JsError`.
- The external FFT library (`fft-js`) and the Hann window produce irrational
  magnitudes; the per-frame computation is abstracted as a parameter
  `fftMag : List ℚ → List ℚ` of `generateSpectrogram`.  The frame slicing
  itself is embedded exactly.

Constants are those of the `AudioFingerprinter` copy embedded in
`song-matcher.service.ts` (MIN_AMPLITUDE = 15, FANOUT = 3), the operating
point the specification selects.
-/

namespace Sonic

/-- Kinds of JavaScript runtime failures relevant to the embedded code. -/
inductive JsError where
  | typeError
  | fileNotFound
  | noFingerprints
  | songNotFound
  | decodeFailed
  | storeFailure
  deriving DecidableEq

/-- A `(hash, time_offset)` fingerprint record (`AudioFingerprint`). -/
structure Fingerprint where
  hash : ℕ
  timeOffset : ℚ
  deriving DecidableEq

/-- A spectral peak `(frequency, time, magnitude)`. -/
structure Peak where
  frequency : ℚ
  time : ℚ
  magnitude : ℚ
  deriving DecidableEq

/-- A stored posting in the fingerprint store (`fingerprints` table row). -/
structure StoredFingerprint where
  songId : ℕ
  hashValue : ℕ
  timeOffset : ℚ
  deriving DecidableEq

/-- A match record produced during identification (`FingerprintMatch`). -/
structure FingerprintMatch where
  songId : ℕ
  timeOffset : ℚ
  queryTimeOffset : ℚ
  timeDelta : ℚ
  deriving DecidableEq

/-- Per-candidate alignment data (`AlignmentScore`). -/
structure AlignmentScore where
  alignedMatches : ℕ
  confidence : ℚ
  timeOffset : ℚ
  deriving DecidableEq

/-- The matcher's result (`MatchResult`); `processingTime` is set by callers. -/
structure MatchResult where
  songId : ℕ
  confidence : ℚ
  alignedMatches : ℕ
  totalQueryFingerprints : ℕ
  processingTime : ℚ
  deriving DecidableEq

/-! ## Stable sort (model of `Array.prototype.sort`) -/

/-- Insert `x` into `l` in front of the first element `y` with `le x y`;
stable insertion step. -/
def insertSorted {α : Type} (le : α → α → Bool) (x : α) : List α → List α
  | [] => [x]
  | y :: ys => if le x y then x :: y :: ys else y :: insertSorted le x ys

/-- Stable insertion sort, the model of JavaScript's stable
`Array.prototype.sort` under a consistent comparator. -/
def insertionSort {α : Type} (le : α → α → Bool) : List α → List α
  | [] => []
  | x :: xs => insertSorted le x (insertionSort le xs)

theorem insertSorted_perm {α : Type} (le : α → α → Bool) (x : α) (l : List α) :
    (insertSorted le x l).Perm (x :: l) := by
  induction l with
  | nil => simp [insertSorted]
  | cons y ys ih =>
    simp only [insertSorted]
    by_cases h : le x y
    · simp [h]
    · simp only [h, if_neg, Bool.false_eq_true, not_false_iff]
      exact (ih.cons y).trans (List.Perm.swap x y ys)

theorem insertionSort_perm {α : Type} (le : α → α → Bool) (l : List α) :
    (insertionSort le l).Perm l := by
  induction l with
  | nil => simp [insertionSort]
  | cons x xs ih =>
    exact (insertSorted_perm le x (insertionSort le xs)).trans (ih.cons x)

theorem mem_insertionSort {α : Type} (le : α → α → Bool) (l : List α) (a : α) :
    a ∈ insertionSort le l ↔ a ∈ l :=
  (insertionSort_perm le l).mem_iff

theorem pairwise_insertSorted {α : Type} (le : α → α → Bool)
    (htrans : ∀ a b c, le a b = true → le b c = true → le a c = true)
    (htot : ∀ a b, le a b = true ∨ le b a = true)
    (x : α) (l : List α) (h : List.Pairwise (fun a b => le a b = true) l) :
    List.Pairwise (fun a b => le a b = true) (insertSorted le x l) := by
  induction l with
  | nil => simp [insertSorted]
  | cons y ys ih =>
    rcases List.pairwise_cons.mp h with ⟨hy, hys⟩
    by_cases hxy : le x y
    · simp only [insertSorted, hxy, if_pos]
      refine List.Pairwise.cons ?_ (List.Pairwise.cons hy hys)
      intro z hz
      rcases List.mem_cons.mp hz with rfl | hz
      · exact hxy
      · exact htrans x y z hxy (hy z hz)
    · simp only [insertSorted, hxy, if_neg, Bool.false_eq_true, not_false_iff]
      refine List.Pairwise.cons ?_ (ih hys)
      intro z hz
      have hz' := ((insertSorted_perm le x ys).mem_iff).mp hz
      rcases List.mem_cons.mp hz' with hzx | hz'
      · rw [hzx]
        rcases htot x y with h1 | h1
        · exact absurd h1 hxy
        · exact h1
      · exact hy z hz'

theorem pairwise_insertionSort {α : Type} (le : α → α → Bool)
    (htrans : ∀ a b c, le a b = true → le b c = true → le a c = true)
    (htot : ∀ a b, le a b = true ∨ le b a = true) (l : List α) :
    List.Pairwise (fun a b => le a b = true) (insertionSort le l) := by
  induction l with
  | nil => simp [insertionSort]
  | cons x xs ih => exact pairwise_insertSorted le htrans htot x _ ih

/-! ## Association-list model of JavaScript `Map` -/

/-- `Map.prototype.set`: update the entry in place when the key is present,
otherwise append a new entry (JS maps preserve insertion order). -/
def assocSet {α β : Type} [DecidableEq α] (m : List (α × β)) (k : α) (v : β) :
    List (α × β) :=
  if m.any fun e => e.1 = k then
    m.map fun e => if e.1 = k then (k, v) else e
  else m ++ [(k, v)]

/-- `Map.prototype.get` returning `none` for a missing key. -/
def assocGet {α β : Type} [DecidableEq α] (m : List (α × β)) (k : α) :
    Option β :=
  (m.find? fun e => e.1 = k).map Prod.snd

/-! ## Pair hasher (`AudioFingerprinter.createHash`) -/

/-- Embedding of `createHash(f1, f2, timeDelta)`: quantize both frequencies to
10 Hz bins and the delta to centiseconds, then combine with the 31-multiplier
rolling scheme, coercing to unsigned 32-bit (`>>> 0`) at every step. -/
def createHash (f1 f2 timeDelta : ℚ) : ℕ :=
  let quantizedF1 : ℤ := ⌊f1 / 10⌋ * 10
  let quantizedF2 : ℤ := ⌊f2 / 10⌋ * 10
  let quantizedDelta : ℚ := (⌊timeDelta * 100⌋ : ℚ) / 100
  let h1 : ℤ := (0 * 31 + quantizedF1).emod (2 ^ 32)
  let h2 : ℤ := (h1 * 31 + quantizedF2).emod (2 ^ 32)
  let h3 : ℤ := (h2 * 31 + ⌊quantizedDelta * 1000⌋).emod (2 ^ 32)
  h3.toNat

/-- Modelled from the spec: the hash formula
`h = ((q1 · 31 + q2) · 31 + qd) mod 2^32` at each step, with
`q1 = ⌊f_anchor/10⌋·10`, `q2 = ⌊f_target/10⌋·10`, `qd = ⌊⌊Δt·100⌋·10⌋`.
Used only to compare against the source's `createHash`. -/
def createHashSpec (f1 f2 timeDelta : ℚ) : ℕ :=
  let q1 : ℤ := ⌊f1 / 10⌋ * 10
  let q2 : ℤ := ⌊f2 / 10⌋ * 10
  let qd : ℤ := ⌊(⌊timeDelta * 100⌋ : ℚ) * 10⌋
  (((q1.emod (2 ^ 32) * 31 + q2).emod (2 ^ 32) * 31 + qd).emod (2 ^ 32)).toNat

/-! ## Pair hasher (`AudioFingerprinter.peaksToFingerprints`) -/

/-- The fingerprint built from an anchor peak and a target peak. -/
def fingerprintOf (anchor target : Peak) : Fingerprint :=
  ⟨createHash anchor.frequency target.frequency (target.time - anchor.time),
    anchor.time⟩

/-- Embedding of the inner target loop of `peaksToFingerprints` for one
anchor: scan the later peaks in order with a running `targetCount`; `continue`
when the gap is below `MIN_HASH_TIME_DELTA = 0.5`, `break` once it exceeds
`MAX_HASH_TIME_DELTA = 3.0`, stop after `FANOUT = 3` emissions. -/
def emitForAnchor (anchor : Peak) : List Peak → ℕ → List Fingerprint
  | [], _ => []
  | target :: rest, targetCount =>
    if targetCount < 3 then
      if target.time - anchor.time < 1 / 2 then
        emitForAnchor anchor rest targetCount
      else if 3 < target.time - anchor.time then []
      else fingerprintOf anchor target :: emitForAnchor anchor rest (targetCount + 1)
    else []

/-- The outer anchor loop of `peaksToFingerprints`: each position of the
(time-sorted) list is an anchor paired against the peaks after it. -/
def pairAllAnchors : List Peak → List Fingerprint
  | [] => []
  | p :: ps => emitForAnchor p ps 0 ++ pairAllAnchors ps

/-- Comparator `(a, b) => a.time - b.time` (ascending by time). -/
def timeAsc (a b : Peak) : Bool := decide (a.time ≤ b.time)

/-- Comparator `(a, b) => b.magnitude - a.magnitude` (descending by
magnitude). -/
def magnitudeDesc (a b : Peak) : Bool := decide (b.magnitude ≤ a.magnitude)

/-- Embedding of `peaksToFingerprints`: sort peaks by time, then run the
anchor/target pairing loop. -/
def peaksToFingerprints (peaks : List Peak) : List Fingerprint :=
  pairAllAnchors (insertionSort timeAsc peaks)

/-- Modelled from the spec: for one anchor, restrict the later peaks to those
before the first gap exceeding `DT_MAX = 3.0`, keep the gaps of at least
`DT_MIN = 0.5`, and emit fingerprints for the first `FANOUT = 3` of them. -/
def specEmitForAnchor (anchor : Peak) (rest : List Peak) : List Fingerprint :=
  ((((rest.takeWhile fun t => decide (t.time - anchor.time ≤ 3)).filter
        fun t => decide (1 / 2 ≤ t.time - anchor.time)).take 3).map
    (fingerprintOf anchor))

/-- Modelled from the spec: every position of the time-sorted list acts as an
anchor, contributing `specEmitForAnchor` of the peaks after it. -/
def specPairAllAnchors : List Peak → List Fingerprint
  | [] => []
  | p :: ps => specEmitForAnchor p ps ++ specPairAllAnchors ps

/-! ## Spectrogrammer (`AudioFingerprinter.generateSpectrogram`) -/

/-- Embedding of the frame loop
`for (let i = 0; i <= audioData.length - WINDOW_SIZE; i += HOP_LENGTH)`
(`WINDOW_SIZE = 4096`, `HOP_LENGTH = 1024`): the list of window start
indices, beginning at `i`.  The comparison is over `ℤ` because the JS
subtraction can be negative. -/
def frameStartsFrom (len i : ℕ) : List ℕ :=
  if h : (i : ℤ) ≤ (len : ℤ) - 4096 then i :: frameStartsFrom len (i + 1024)
  else []
termination_by len - i
decreasing_by omega

/-- Embedding of `generateSpectrogram`: one magnitude row per frame start.
The Hann windowing, the external `fft-js` FFT and the magnitude computation
produce irrational values and are abstracted as `fftMag`; the window slice
passed to them is exact. -/
def generateSpectrogram (fftMag : List ℚ → List ℚ) (audioData : List ℚ) :
    List (List ℚ) :=
  (frameStartsFrom audioData.length 0).map fun i =>
    fftMag ((audioData.drop i).take 4096)

/-! ## Peak picker (`AudioFingerprinter.findPeaks`, MIN_AMPLITUDE = 15) -/

/-- `spectrogram[t][f]`, with out-of-range reads defaulting to 0 (the embedded
code only reads in-range cells). -/
def spectrogramCell (M : List (List ℚ)) (t f : ℕ) : ℚ :=
  (M.getD t []).getD f 0

/-- Embedding of `isLocalMaximum(spectrogram, t, f, 20)`: scan offsets
`dt, df ∈ [-10, 10]`, skip the center, and fail as soon as an in-matrix
neighbor is `≥` the center magnitude.  The in-matrix test for the frequency
axis uses the first row's length, as the source does. -/
def isLocalMaximum (M : List (List ℚ)) (t f : ℕ) : Bool :=
  let magnitude := spectrogramCell M t f
  (List.range 21).all fun dti =>
    (List.range 21).all fun dfi =>
      let dt : ℤ := (dti : ℤ) - 10
      let df : ℤ := (dfi : ℤ) - 10
      if dt = 0 ∧ df = 0 then true
      else
        let nt : ℤ := (t : ℤ) + dt
        let nf : ℤ := (f : ℤ) + df
        if 0 ≤ nt ∧ nt < (M.length : ℤ) ∧ 0 ≤ nf ∧
            nf < ((M.getD 0 []).length : ℤ) then
          decide (spectrogramCell M nt.toNat nf.toNat < magnitude)
        else true

/-- The peak record emitted for cell `(t, f)` of a spectrogram whose rows have
`frequencyBins` bins: physical frequency `f·SR/(2·(bins−1))`, physical time
`t·HOP/SR`, with `SR = 22050`, `HOP = 1024`. -/
def peakOfCell (M : List (List ℚ)) (frequencyBins t f : ℕ) : Peak :=
  ⟨((f : ℚ) * 22050) / (2 * ((frequencyBins : ℚ) - 1)),
    ((t : ℚ) * 1024) / 22050,
    spectrogramCell M t f⟩

/-- Embedding of the candidate-collection double loop of `findPeaks`: every
cell whose magnitude reaches `MIN_AMPLITUDE = 15` and that is a local maximum
becomes a peak, in row-major (time-then-frequency) order. -/
def peakCandidates (M : List (List ℚ)) : List Peak :=
  let frequencyBins := (M.getD 0 []).length
  (List.range M.length).flatMap fun t =>
    (List.range frequencyBins).filterMap fun f =>
      if 15 ≤ spectrogramCell M t f ∧ isLocalMaximum M t f = true then
        some (peakOfCell M frequencyBins t f)
      else none

/-- Embedding of `findPeaks`: reading `spectrogram[0].length` of an empty
spectrogram throws a `TypeError` (reading `.length` of `undefined`);
otherwise collect the candidates, sort them by descending magnitude and keep
the strongest 10000. -/
def findPeaks (M : List (List ℚ)) : Except JsError (List Peak) :=
  match M with
  | [] => .error .typeError
  | _ :: _ => .ok ((insertionSort magnitudeDesc (peakCandidates M)).take 10000)

/-- Embedding of `generateFingerprints` after decoding: spectrogram, peaks,
then pair hashing.  Decoding (`extractAudioData`, external ffmpeg) is
represented by the caller supplying `audioData` directly. -/
def generateFingerprints (fftMag : List ℚ → List ℚ) (audioData : List ℚ) :
    Except JsError (List Fingerprint) :=
  match findPeaks (generateSpectrogram fftMag audioData) with
  | .error e => .error e
  | .ok peaks => .ok (peaksToFingerprints peaks)

/-- Modelled from the spec: cell `(t, f)` is a strict local maximum of the
closed square `[t−10 .. t+10] × [f−10 .. f+10]`: every other in-matrix cell of
the square is strictly smaller, and cells outside the matrix are absent
rather than zero. -/
def StrictLocalMax (M : List (List ℚ)) (t f : ℕ) : Prop :=
  ∀ nt : ℕ, nt < M.length → ∀ nf : ℕ, nf < (M.getD 0 []).length →
    (nt, nf) ≠ (t, f) →
    t ≤ nt + 10 → nt ≤ t + 10 → f ≤ nf + 10 → nf ≤ f + 10 →
    spectrogramCell M nt nf < spectrogramCell M t f

/-! ## Store lookup (`DatabaseService.findMatchingFingerprints`) -/

/-- Embedding of `findMatchingFingerprints`: fetch every stored posting whose
hash occurs among the query hashes (in store order), build the
`hash → query time` map (`Map.set`, so a later query occurrence of a hash
overwrites an earlier one), and pair each posting with the mapped query time
(`|| 0` when absent). -/
def findMatchingFingerprints (queryFingerprints : List Fingerprint)
    (db : List StoredFingerprint) : List FingerprintMatch :=
  let hashes := queryFingerprints.map Fingerprint.hash
  let foundRows := db.filter fun p => decide (p.hashValue ∈ hashes)
  let queryMap := queryFingerprints.foldl
    (fun m qf => assocSet m qf.hash qf.timeOffset) []
  foundRows.map fun p =>
    let queryTimeOffset := (assocGet queryMap p.hashValue).getD 0
    ⟨p.songId, p.timeOffset, queryTimeOffset, p.timeOffset - queryTimeOffset⟩

/-- Embedding of the batching loop of `SongMatcher.findPotentialMatches`:
slices of 100 query fingerprints. -/
def toBatches : List Fingerprint → List (List Fingerprint)
  | [] => []
  | x :: xs => ((x :: xs).take 100) :: toBatches ((x :: xs).drop 100)
termination_by l => l.length
decreasing_by simp; omega

/-- Embedding of `findPotentialMatches`: look up each batch and concatenate
the results. -/
def findPotentialMatches (queryFingerprints : List Fingerprint)
    (db : List StoredFingerprint) : List FingerprintMatch :=
  (toBatches queryFingerprints).flatMap fun batch =>
    findMatchingFingerprints batch db

/-! ## Matcher (`SongMatcher`) -/

/-- Embedding of `groupMatchesBySong`: a JS `Map` from song id to the list of
its matches, in first-appearance order. -/
def groupMatchesBySong (matchList : List FingerprintMatch) :
    List (ℕ × List FingerprintMatch) :=
  matchList.foldl
    (fun gs m => assocSet gs m.songId ((assocGet gs m.songId).getD [] ++ [m]))
    []

/-- JavaScript `Math.round` on exact rationals: `⌊x + 1/2⌋`. -/
def jsRound (x : ℚ) : ℤ := ⌊x + 1 / 2⌋

/-- The histogram bin of a delta: `Math.round(delta / tolerance) * tolerance`. -/
def quantizeDelta (tolerance delta : ℚ) : ℚ :=
  (jsRound (delta / tolerance) : ℚ) * tolerance

/-- Embedding of `createDeltaHistogram`: a JS `Map` from quantized delta to
its count, bins in first-appearance order. -/
def createDeltaHistogram (timeDeltas : List ℚ) (tolerance : ℚ) :
    List (ℚ × ℕ) :=
  timeDeltas.foldl
    (fun h delta =>
      assocSet h (quantizeDelta tolerance delta)
        ((assocGet h (quantizeDelta tolerance delta)).getD 0 + 1))
    []

/-- Embedding of the scan loop of `findBestAlignment`, carrying `bestDelta`
and `maxCount` (strict improvement only). -/
def findBestAlignmentLoop : List (ℚ × ℕ) → ℚ → ℕ → ℚ × ℕ
  | [], bestDelta, maxCount => (bestDelta, maxCount)
  | (delta, count) :: rest, bestDelta, maxCount =>
    if maxCount < count then findBestAlignmentLoop rest delta count
    else findBestAlignmentLoop rest bestDelta maxCount

/-- Embedding of `findBestAlignment`: the first histogram bin of maximal
count, provided that count reaches `MIN_MATCHES = 5`. -/
def findBestAlignment (histogram : List (ℚ × ℕ)) : Option (ℚ × ℕ) :=
  let r := findBestAlignmentLoop histogram 0 0
  if 5 ≤ r.2 then some r else none

/-- Embedding of `calculateSingleAlignmentScore`: histogram the deltas with
`TIME_ALIGNMENT_TOLERANCE = 0.1`, take the best bin, then count as aligned
every match whose delta lies within the tolerance of that bin's value, and
divide by the group size for the confidence. -/
def calculateSingleAlignmentScore (matchList : List FingerprintMatch) :
    AlignmentScore :=
  let timeDeltas := matchList.map FingerprintMatch.timeDelta
  let histogram := createDeltaHistogram timeDeltas (1 / 10)
  match findBestAlignment histogram with
  | none => ⟨0, 0, 0⟩
  | some best =>
    let alignedMatches :=
      (timeDeltas.filter fun delta => decide (|delta - best.1| ≤ 1 / 10)).length
    ⟨alignedMatches, (alignedMatches : ℚ) / (matchList.length : ℚ), best.1⟩

/-- Embedding of `calculateAlignmentScores`: skip groups with fewer than
`MIN_MATCHES = 5` entries, score the rest and keep scores whose confidence
reaches `CONFIDENCE_THRESHOLD = 0.1` (a JS `Map` keyed by song id). -/
def calculateAlignmentScores (songMatches : List (ℕ × List FingerprintMatch)) :
    List (ℕ × AlignmentScore) :=
  songMatches.foldl
    (fun acc g =>
      if g.2.length < 5 then acc
      else
        let score := calculateSingleAlignmentScore g.2
        if 1 / 10 ≤ score.confidence then assocSet acc g.1 score else acc)
    []

/-- The combined ranking score of `findBestMatch`:
`confidence · (alignedMatches / totalQueryFingerprints)`. -/
def combinedScore (totalQueryFingerprints : ℕ) (score : AlignmentScore) : ℚ :=
  score.confidence * ((score.alignedMatches : ℚ) / (totalQueryFingerprints : ℚ))

/-- Embedding of the scan loop of `findBestMatch`: keep the current best match
and highest combined score, updating on strict improvement only
(`combinedScore > highestScore`). -/
def findBestMatchLoop (totalQueryFingerprints : ℕ) :
    List (ℕ × AlignmentScore) → Option MatchResult → ℚ → Option MatchResult
  | [], bestMatch, _ => bestMatch
  | (songId, score) :: rest, bestMatch, highestScore =>
    if highestScore < combinedScore totalQueryFingerprints score then
      findBestMatchLoop totalQueryFingerprints rest
        (some ⟨songId, score.confidence, score.alignedMatches,
          totalQueryFingerprints, 0⟩)
        (combinedScore totalQueryFingerprints score)
    else findBestMatchLoop totalQueryFingerprints rest bestMatch highestScore

/-- Embedding of `findBestMatch`, starting from no match and
`highestScore = 0`. -/
def findBestMatch (alignmentScores : List (ℕ × AlignmentScore))
    (totalQueryFingerprints : ℕ) : Option MatchResult :=
  findBestMatchLoop totalQueryFingerprints alignmentScores none 0

/-! ## Identification service (`ShazamService.identifySong`) -/

/-- A `songs` table row, as exposed in identification results. -/
structure SongRecord where
  id : ℕ
  title : String
  artist : String
  album : Option String
  duration : Option ℚ
  deriving DecidableEq

/-- The `IdentifyResult` value returned by `ShazamService.identifySong`. -/
structure IdentifyResult where
  success : Bool
  song : Option SongRecord
  confidence : Option ℚ
  alignedMatches : Option ℕ
  totalQueryFingerprints : Option ℕ
  processingTime : ℚ
  deriving DecidableEq

/-- The outcomes of the effectful collaborators consulted by
`ShazamService.identifySong`, each able to fail: file existence check, ffprobe
duration, fingerprint generation, the matcher, and the song lookup.
`recordUserQuery` swallows its own errors in the source and so has no failing
outcome.  `elapsed` stands for the `Date.now()` differences. -/
structure IdentifyEnv where
  fileExists : Bool
  audioDuration : Except JsError ℚ
  queryFingerprints : Except JsError (List Fingerprint)
  matcherOutcome : Except JsError (Option MatchResult)
  songLookup : ℕ → Except JsError (Option SongRecord)
  elapsed : ℚ

/-- Embedding of the `try` body of `ShazamService.identifySong`: any failing
step aborts the body with its error (exception propagation written as
explicit `Except` matches). -/
def identifySongBody (env : IdentifyEnv) : Except JsError IdentifyResult :=
  if env.fileExists = false then .error .fileNotFound
  else
    match env.audioDuration with
    | .error e => .error e
    | .ok _audioDuration =>
      match env.queryFingerprints with
      | .error e => .error e
      | .ok queryFingerprints =>
        if queryFingerprints.length = 0 then .error .noFingerprints
        else
          match env.matcherOutcome with
          | .error e => .error e
          | .ok (some m) =>
            match env.songLookup m.songId with
            | .error e => .error e
            | .ok none => .error .songNotFound
            | .ok (some song) =>
              .ok ⟨true, some song, some m.confidence, some m.alignedMatches,
                some m.totalQueryFingerprints, env.elapsed⟩
          | .ok none => .ok ⟨false, none, none, none, none, env.elapsed⟩

/-- Embedding of `ShazamService.identifySong`: the whole body runs inside
`try`/`catch`, and the `catch` block returns
`{ success: false, processingTime }`. -/
def identifySong (env : IdentifyEnv) : IdentifyResult :=
  match identifySongBody env with
  | .ok r => r
  | .error _ => ⟨false, none, none, none, none, env.elapsed⟩

/-! ## Supporting lemmas: frame starts -/

theorem frameStartsFrom_eq_nil (len i : ℕ) (h : (len : ℤ) - 4096 < (i : ℤ)) :
    frameStartsFrom len i = [] := by
  rw [frameStartsFrom, dif_neg (by omega)]

theorem frameStartsFrom_length (fuel : ℕ) : ∀ len i : ℕ, len - i ≤ fuel →
    (i : ℤ) ≤ (len : ℤ) - 4096 →
    (frameStartsFrom len i).length = (len - 4096 - i) / 1024 + 1 := by
  induction fuel with
  | zero =>
    intro len i hf h
    exfalso
    omega
  | succ fuel ih =>
    intro len i hf h
    rw [frameStartsFrom, dif_pos h, List.length_cons]
    by_cases h2 : ((i : ℤ) + 1024) ≤ (len : ℤ) - 4096
    · rw [ih len (i + 1024) (by omega) (by push_cast; omega)]
      omega
    · rw [frameStartsFrom_eq_nil len (i + 1024) (by push_cast; omega)]
      simp only [List.length_nil]
      omega

theorem frameStartsFrom_mem (fuel : ℕ) : ∀ len i s : ℕ, len - i ≤ fuel →
    s ∈ frameStartsFrom len i → s + 4096 ≤ len := by
  induction fuel with
  | zero =>
    intro len i s hf hs
    by_cases h : (i : ℤ) ≤ (len : ℤ) - 4096
    · exfalso
      omega
    · rw [frameStartsFrom, dif_neg h] at hs
      simp at hs
  | succ fuel ih =>
    intro len i s hf hs
    by_cases h : (i : ℤ) ≤ (len : ℤ) - 4096
    · rw [frameStartsFrom, dif_pos h] at hs
      rcases List.mem_cons.mp hs with hsi | hs
      · subst hsi
        omega
      · exact ih len (i + 1024) s (by omega) hs
    · rw [frameStartsFrom, dif_neg h] at hs
      simp at hs

/-! ## Claim theorems -/

/-- C6: the fingerprint hash of an anchor–target pair equals the polynomial
combination `((q1·31 + q2)·31 + qd)` reduced mod `2^32` at each step, with
`q1 = ⌊f_anchor/10⌋·10`, `q2 = ⌊f_target/10⌋·10`, `qd = ⌊⌊Δt·100⌋·10⌋`, and
the 32-bit result is widened losslessly (it is below `2^32`, so storing it in
a 64-bit key is the identity). -/
theorem c6_hash_formula (f1 f2 timeDelta : ℚ) :
    createHash f1 f2 timeDelta = createHashSpec f1 f2 timeDelta ∧
    createHash f1 f2 timeDelta < 2 ^ 32 := by
  constructor
  · have h : ((⌊timeDelta * 100⌋ : ℚ) / 100) * 1000 =
        (⌊timeDelta * 100⌋ : ℚ) * 10 := by
      ring
    simp only [createHash, createHashSpec, zero_mul, zero_add, h]
  · have h1 : (0 : ℤ) ≤
        ((((0 * 31 + ⌊f1 / 10⌋ * 10).emod (2 ^ 32)) * 31 + ⌊f2 / 10⌋ * 10).emod
              (2 ^ 32) * 31 +
            ⌊(⌊timeDelta * 100⌋ : ℚ) / 100 * 1000⌋).emod (2 ^ 32) :=
      Int.emod_nonneg _ (by norm_num)
    have h2 :
        ((((0 * 31 + ⌊f1 / 10⌋ * 10).emod (2 ^ 32)) * 31 + ⌊f2 / 10⌋ * 10).emod
              (2 ^ 32) * 31 +
            ⌊(⌊timeDelta * 100⌋ : ℚ) / 100 * 1000⌋).emod (2 ^ 32) < 2 ^ 32 :=
      Int.emod_lt_of_pos _ (by norm_num)
    simp only [createHash]
    omega

/-- C7: for every audio input of length `L ≥ 4096`, the spectrogrammer emits
exactly `⌊(L − 4096)/1024⌋ + 1` frames, and every emitted frame's window fits
inside the signal (no zero padding). -/
theorem c7_frame_count (fftMag : List ℚ → List ℚ) (audioData : List ℚ)
    (h : 4096 ≤ audioData.length) :
    (generateSpectrogram fftMag audioData).length =
      (audioData.length - 4096) / 1024 + 1 ∧
    ∀ s ∈ frameStartsFrom audioData.length 0,
      s + 4096 ≤ audioData.length := by
  constructor
  · unfold generateSpectrogram
    rw [List.length_map]
    have h0 : ((0 : ℕ) : ℤ) ≤ (audioData.length : ℤ) - 4096 := by
      push_cast
      omega
    rw [frameStartsFrom_length audioData.length audioData.length 0
      (by omega) h0]
    omega
  · intro s hs
    exact frameStartsFrom_mem audioData.length audioData.length 0 s (by omega) hs

theorem c7_frame_count_witness :
    4096 ≤ (List.replicate 4096 (0 : ℚ)).length ∧
    ((generateSpectrogram (fun _ => []) (List.replicate 4096 (0 : ℚ))).length =
        ((List.replicate 4096 (0 : ℚ)).length - 4096) / 1024 + 1 ∧
      ∀ s ∈ frameStartsFrom (List.replicate 4096 (0 : ℚ)).length 0,
        s + 4096 ≤ (List.replicate 4096 (0 : ℚ)).length) :=
  ⟨by rw [List.length_replicate], c7_frame_count (fun _ => [])
    (List.replicate 4096 (0 : ℚ)) (by rw [List.length_replicate])⟩

/-- C5: on an input shorter than one FFT window (here 4095 samples) the
pipeline does fail, but with a `TypeError` — the spectrogram is empty, and
`findPeaks` reads `spectrogram[0].length` of `undefined` — not with the
`InputTooShort` error the specification prescribes, and not with a successful
empty result. -/
theorem c5_short_input_crashes :
    generateFingerprints (fun _ => []) (List.replicate 4095 (0 : ℚ)) =
      .error .typeError := by
  have h : generateSpectrogram (fun _ => []) (List.replicate 4095 (0 : ℚ)) = [] := by
    unfold generateSpectrogram
    rw [List.length_replicate, frameStartsFrom_eq_nil 4095 0 (by norm_num)]
    rfl
  unfold generateFingerprints
  rw [h]
  rfl

/-! ## Supporting lemmas: pair hasher -/

theorem emitForAnchor_eq (a : Peak) : ∀ (rest : List Peak) (c : ℕ),
    emitForAnchor a rest c =
      ((((rest.takeWhile fun t => decide (t.time - a.time ≤ 3)).filter
            fun t => decide (1 / 2 ≤ t.time - a.time)).take (3 - c)).map
        (fingerprintOf a)) := by
  intro rest
  induction rest with
  | nil => intro c; simp [emitForAnchor]
  | cons t ts ih =>
    intro c
    by_cases hc : c < 3
    · by_cases h1 : t.time - a.time < 1 / 2
      · have htw : decide (t.time - a.time ≤ 3) = true := by
          simp only [decide_eq_true_eq]
          linarith
        have hft : decide ((1 : ℚ) / 2 ≤ t.time - a.time) = false := by
          simp only [decide_eq_false_iff_not]
          intro hx
          linarith
        simp only [emitForAnchor, if_pos hc, if_pos h1, List.takeWhile_cons,
          List.filter_cons, htw, hft, if_true, Bool.false_eq_true, if_false,
          ite_true, ite_false]
        exact ih c
      · by_cases h2 : 3 < t.time - a.time
        · have htw : decide (t.time - a.time ≤ 3) = false := by
            simp only [decide_eq_false_iff_not]
            intro hx
            linarith
          simp only [emitForAnchor, if_pos hc, if_neg h1, if_pos h2,
            List.takeWhile_cons, htw, Bool.false_eq_true, if_false, ite_false,
            List.filter_nil, List.take_nil, List.map_nil]
        · have htw : decide (t.time - a.time ≤ 3) = true := by
            simp only [decide_eq_true_eq]
            linarith
          have hft : decide ((1 : ℚ) / 2 ≤ t.time - a.time) = true := by
            simp only [decide_eq_true_eq]
            linarith
          have hsub : 3 - c = (3 - (c + 1)) + 1 := by omega
          simp only [emitForAnchor, if_pos hc, if_neg h1, if_neg h2,
            List.takeWhile_cons, List.filter_cons, htw, hft, if_true, ite_true,
            hsub, List.take_succ_cons, List.map_cons]
          rw [ih (c + 1)]
    · have hsub : 3 - c = 0 := by omega
      simp only [emitForAnchor, if_neg hc, hsub, List.take_zero, List.map_nil]

theorem pairAllAnchors_eq_spec (l : List Peak) :
    pairAllAnchors l = specPairAllAnchors l := by
  induction l with
  | nil => rfl
  | cons p ps ih =>
    simp only [pairAllAnchors, specPairAllAnchors, ih]
    rw [emitForAnchor_eq]
    rfl

theorem mem_emitForAnchor_timeOffset (a : Peak) (rest : List Peak) (c : ℕ)
    (x : Fingerprint) (hx : x ∈ emitForAnchor a rest c) :
    x.timeOffset = a.time := by
  rw [emitForAnchor_eq] at hx
  rcases List.mem_map.mp hx with ⟨t, _, rfl⟩
  rfl

theorem mem_pairAllAnchors (l : List Peak) (x : Fingerprint)
    (hx : x ∈ pairAllAnchors l) : ∃ p ∈ l, x.timeOffset = p.time := by
  induction l with
  | nil => simp [pairAllAnchors] at hx
  | cons p ps ih =>
    rcases List.mem_append.mp hx with h | h
    · exact ⟨p, List.mem_cons_self p ps, mem_emitForAnchor_timeOffset p ps 0 x h⟩
    · rcases ih h with ⟨q, hq, hq2⟩
      exact ⟨q, List.mem_cons_of_mem p hq, hq2⟩

theorem pairAllAnchors_pairwise (l : List Peak)
    (h : List.Pairwise (fun a b : Peak => a.time ≤ b.time) l) :
    List.Pairwise (fun x y : Fingerprint => x.timeOffset ≤ y.timeOffset)
      (pairAllAnchors l) := by
  induction l with
  | nil => simp [pairAllAnchors]
  | cons p ps ih =>
    rcases List.pairwise_cons.mp h with ⟨hp, hps⟩
    simp only [pairAllAnchors]
    rw [List.pairwise_append]
    refine ⟨?_, ih hps, ?_⟩
    · apply List.pairwise_of_forall_mem_list
      intro x hx y hy
      rw [mem_emitForAnchor_timeOffset p ps 0 x hx,
        mem_emitForAnchor_timeOffset p ps 0 y hy]
    · intro x hx y hy
      rw [mem_emitForAnchor_timeOffset p ps 0 x hx]
      rcases mem_pairAllAnchors ps y hy with ⟨q, hq, hq2⟩
      rw [hq2]
      exact hp q hq

theorem timeAsc_trans (a b c : Peak) (h1 : timeAsc a b = true)
    (h2 : timeAsc b c = true) : timeAsc a c = true := by
  simp only [timeAsc, decide_eq_true_eq] at h1 h2 ⊢
  exact le_trans h1 h2

theorem timeAsc_total (a b : Peak) : timeAsc a b = true ∨ timeAsc b a = true := by
  simp only [timeAsc, decide_eq_true_eq]
  exact le_total a.time b.time

/-- C3: the pair hasher on the time-sorted peak list equals the
specification's description — per anchor, restrict the later peaks to those
before the first gap above 3.0 s, keep gaps of at least 0.5 s, and emit
fingerprints for at most the first FANOUT = 3 of them, each carrying the
anchor's time as its `time_offset`. -/
theorem c3_pair_hasher (peaks : List Peak) (anchor : Peak) (rest : List Peak) :
    peaksToFingerprints peaks = specPairAllAnchors (insertionSort timeAsc peaks) ∧
    (specEmitForAnchor anchor rest).length ≤ 3 ∧
    ∀ x ∈ specEmitForAnchor anchor rest, x.timeOffset = anchor.time := by
  refine ⟨pairAllAnchors_eq_spec _, ?_, ?_⟩
  · unfold specEmitForAnchor
    rw [List.length_map]
    exact List.length_take_le _ _
  · intro x hx
    unfold specEmitForAnchor at hx
    rcases List.mem_map.mp hx with ⟨t, _, rfl⟩
    rfl

theorem c3_pair_hasher_witness :
    (fingerprintOf ⟨100, 0, 20⟩ ⟨200, 1, 20⟩).timeOffset =
      (Peak.mk 100 0 20).time ∧
    peaksToFingerprints [] = specPairAllAnchors (insertionSort timeAsc []) :=
  ⟨(c3_pair_hasher [] ⟨100, 0, 20⟩ [⟨200, 1, 20⟩]).2.2
      (fingerprintOf ⟨100, 0, 20⟩ ⟨200, 1, 20⟩)
      (by
        have h : specEmitForAnchor ⟨100, 0, 20⟩ [⟨200, 1, 20⟩] =
            [fingerprintOf ⟨100, 0, 20⟩ ⟨200, 1, 20⟩] := by
          unfold specEmitForAnchor
          norm_num
        rw [h]
        exact List.mem_singleton.mpr rfl),
    (c3_pair_hasher [] ⟨100, 0, 20⟩ [⟨200, 1, 20⟩]).1⟩

/-! ## Supporting lemmas: peak times -/

theorem findPeaks_time_nonneg (M : List (List ℚ)) (pk : List Peak)
    (h : findPeaks M = .ok pk) : ∀ p ∈ pk, 0 ≤ p.time := by
  intro p hp
  match M, h with
  | m0 :: ms, h =>
    have hpk : pk = (insertionSort magnitudeDesc (peakCandidates (m0 :: ms))).take 10000 := by
      simpa [findPeaks] using h.symm
    subst hpk
    have hp2 : p ∈ insertionSort magnitudeDesc (peakCandidates (m0 :: ms)) :=
      List.mem_of_mem_take hp
    have hp3 : p ∈ peakCandidates (m0 :: ms) :=
      (mem_insertionSort _ _ p).mp hp2
    unfold peakCandidates at hp3
    simp only [List.mem_flatMap, List.mem_filterMap, List.mem_range] at hp3
    rcases hp3 with ⟨t, _, f, _, hpf⟩
    split at hpf
    · cases Option.some_inj.mp hpf
      unfold peakOfCell
      positivity
    · cases hpf

/-- C9: fingerprints emitted by the fingerprinter have non-decreasing
`time_offset` (ascending anchor-time order), and every `time_offset` is
nonnegative. -/
theorem c9_monotone_offsets (fftMag : List ℚ → List ℚ) (audioData : List ℚ)
    (fps : List Fingerprint)
    (h : generateFingerprints fftMag audioData = .ok fps) :
    List.Pairwise (fun x y : Fingerprint => x.timeOffset ≤ y.timeOffset) fps ∧
    ∀ x ∈ fps, 0 ≤ x.timeOffset := by
  unfold generateFingerprints at h
  set M := generateSpectrogram fftMag audioData with hM
  cases hfp : findPeaks M with
  | error e => rw [hfp] at h; cases h
  | ok pk =>
    rw [hfp] at h
    cases h
    constructor
    · apply pairAllAnchors_pairwise
      have := pairwise_insertionSort timeAsc timeAsc_trans timeAsc_total pk
      exact this.imp fun hab => by
        simpa [timeAsc, decide_eq_true_eq] using hab
    · intro x hx
      unfold peaksToFingerprints at hx
      rcases mem_pairAllAnchors _ x hx with ⟨p, hp, hp2⟩
      rw [hp2]
      exact findPeaks_time_nonneg M pk hfp p ((mem_insertionSort _ _ p).mp hp)

theorem c9_monotone_offsets_witness :
    generateFingerprints (fun _ => [0, 0]) (List.replicate 4096 (0 : ℚ)) =
        .ok [] ∧
    (List.Pairwise (fun x y : Fingerprint => x.timeOffset ≤ y.timeOffset)
        ([] : List Fingerprint) ∧
      ∀ x ∈ ([] : List Fingerprint), 0 ≤ x.timeOffset) := by
  have h1 : frameStartsFrom 4096 0 = [0] := by
    rw [frameStartsFrom, dif_pos (by norm_num), frameStartsFrom,
      dif_neg (by norm_num)]
  have h2 : generateSpectrogram (fun _ => [0, 0])
      (List.replicate 4096 (0 : ℚ)) = [[0, 0]] := by
    unfold generateSpectrogram
    rw [List.length_replicate, h1]
    rfl
  have hgen : generateFingerprints (fun _ => [0, 0])
      (List.replicate 4096 (0 : ℚ)) = .ok [] := by
    unfold generateFingerprints
    rw [h2]
    rfl
  exact ⟨hgen, c9_monotone_offsets _ _ _ hgen⟩

/-! ## Supporting lemmas: association lists and the query map -/

theorem assocGet_cons {α β : Type} [DecidableEq α] (e : α × β)
    (es : List (α × β)) (k : α) :
    assocGet (e :: es) k = if e.1 = k then some e.2 else assocGet es k := by
  unfold assocGet
  rw [List.find?_cons]
  by_cases he : e.1 = k
  · simp [he]
  · simp [he]

theorem assocGet_map_update_self {α β : Type} [DecidableEq α] (k : α) (v : β) :
    ∀ m : List (α × β), (m.any fun e => e.1 = k) = true →
      assocGet (m.map fun e => if e.1 = k then (k, v) else e) k = some v := by
  intro m
  induction m with
  | nil => intro h; cases h
  | cons e es ih =>
    intro h
    rw [List.map_cons]
    by_cases he : e.1 = k
    · rw [if_pos he, assocGet_cons]
      simp
    · rw [if_neg he, assocGet_cons, if_neg he]
      apply ih
      simpa [List.any_cons, he] using h

theorem assocGet_append_single_self {α β : Type} [DecidableEq α] (k : α)
    (v : β) : ∀ m : List (α × β), (m.any fun e => e.1 = k) = false →
      assocGet (m ++ [(k, v)]) k = some v := by
  intro m
  induction m with
  | nil =>
    intro _
    rw [List.nil_append, assocGet_cons]
    simp
  | cons e es ih =>
    intro h
    simp only [List.any_cons, Bool.or_eq_false_iff] at h
    rw [List.cons_append, assocGet_cons, if_neg (by simpa using h.1)]
    exact ih h.2

theorem assocGet_assocSet_self {α β : Type} [DecidableEq α]
    (m : List (α × β)) (k : α) (v : β) :
    assocGet (assocSet m k v) k = some v := by
  unfold assocSet
  by_cases h : (m.any fun e => e.1 = k) = true
  · rw [if_pos h]
    exact assocGet_map_update_self k v m h
  · rw [if_neg h]
    exact assocGet_append_single_self k v m (Bool.eq_false_iff.mpr h)

theorem assocGet_map_update_ne {α β : Type} [DecidableEq α] (k k' : α) (v : β)
    (hne : k' ≠ k) : ∀ m : List (α × β),
      assocGet (m.map fun e => if e.1 = k then (k, v) else e) k' =
        assocGet m k' := by
  intro m
  induction m with
  | nil => rfl
  | cons e es ih =>
    rw [List.map_cons]
    by_cases he : e.1 = k
    · rw [if_pos he]
      rw [assocGet_cons (k, v)]
      rw [assocGet_cons e]
      rw [if_neg (fun hx : k = k' => hne hx.symm)]
      rw [if_neg (fun hx : e.1 = k' => hne ((he.symm.trans hx).symm))]
      exact ih
    · rw [if_neg he, assocGet_cons, assocGet_cons]
      by_cases he' : e.1 = k'
      · rw [if_pos he', if_pos he']
      · rw [if_neg he', if_neg he']
        exact ih

theorem assocGet_append_single_ne {α β : Type} [DecidableEq α] (k k' : α)
    (v : β) (hne : k' ≠ k) : ∀ m : List (α × β),
      assocGet (m ++ [(k, v)]) k' = assocGet m k' := by
  intro m
  induction m with
  | nil =>
    rw [List.nil_append, assocGet_cons, if_neg (by simpa using fun hx => hne hx.symm)]
  | cons e es ih =>
    rw [List.cons_append, assocGet_cons, assocGet_cons]
    by_cases he : e.1 = k'
    · rw [if_pos he, if_pos he]
    · rw [if_neg he, if_neg he]
      exact ih

theorem assocGet_assocSet_ne {α β : Type} [DecidableEq α] (m : List (α × β))
    (k k' : α) (v : β) (hne : k' ≠ k) :
    assocGet (assocSet m k v) k' = assocGet m k' := by
  unfold assocSet
  by_cases h : (m.any fun e => e.1 = k) = true
  · rw [if_pos h]
    exact assocGet_map_update_ne k k' v hne m
  · rw [if_neg h]
    exact assocGet_append_single_ne k k' v hne m

/-- The query time offset that survives in the `hash → time` map: the one of
the last query fingerprint bearing that hash. -/
def lastQueryTime (queryFingerprints : List Fingerprint) (h : ℕ) : Option ℚ :=
  ((queryFingerprints.filter fun qf => decide (qf.hash = h)).getLast?).map
    Fingerprint.timeOffset

theorem foldl_assocSet_get (h : ℕ) : ∀ (qfs : List Fingerprint)
    (m : List (ℕ × ℚ)),
    assocGet (qfs.foldl (fun acc qf => assocSet acc qf.hash qf.timeOffset) m) h =
      (lastQueryTime qfs h).or (assocGet m h) := by
  intro qfs
  induction qfs with
  | nil =>
    intro m
    simp [lastQueryTime, Option.or]
  | cons qf rest ih =>
    intro m
    rw [List.foldl_cons, ih]
    by_cases hq : qf.hash = h
    · subst hq
      rw [assocGet_assocSet_self]
      unfold lastQueryTime
      rw [List.filter_cons_of_pos (by simp)]
      cases hrest : (rest.filter fun x => decide (x.hash = qf.hash)).getLast? with
      | none =>
        rw [List.getLast?_eq_none_iff.mp hrest]
        simp [Option.or]
      | some qlast =>
        have hne2 : (rest.filter fun x => decide (x.hash = qf.hash)) ≠ [] := by
          intro hx
          rw [hx] at hrest
          cases hrest
        rcases List.exists_cons_of_ne_nil hne2 with ⟨r0, rs, hr⟩
        rw [hr, List.getLast?_cons_cons]
        have hrest2 : (r0 :: rs).getLast? = some qlast := hr ▸ hrest
        rw [hrest2]
        simp [Option.or]
    · rw [assocGet_assocSet_ne m qf.hash h qf.timeOffset (fun hx => hq hx.symm)]
      unfold lastQueryTime
      rw [List.filter_cons_of_neg (by simpa using hq)]

/-- C2 (amended): for a query that fits in a single lookup batch (at most 100
fingerprints), each stored posting whose hash occurs in the query yields
exactly one match record, paired with the time offset of the LAST query
occurrence of that hash — repeated query occurrences of a hash overwrite one
another in the `hash → query time` map instead of multiplying the match
records. -/
theorem c2_single_batch_lookup (qfs : List Fingerprint)
    (db : List StoredFingerprint) (h1 : qfs ≠ []) (h2 : qfs.length ≤ 100) :
    findPotentialMatches qfs db =
      (db.filter fun p => decide (p.hashValue ∈ qfs.map Fingerprint.hash)).map
        fun p =>
          ⟨p.songId, p.timeOffset, (lastQueryTime qfs p.hashValue).getD 0,
            p.timeOffset - (lastQueryTime qfs p.hashValue).getD 0⟩ := by
  have hb : toBatches qfs = [qfs] := by
    match qfs, h1 with
    | x :: xs, _ =>
      simp only [toBatches]
      rw [List.take_of_length_le h2, List.drop_eq_nil_of_le h2]
      simp [toBatches]
  unfold findPotentialMatches
  rw [hb]
  show findMatchingFingerprints qfs db ++ [].flatMap _ = _
  rw [List.flatMap_nil, List.append_nil]
  unfold findMatchingFingerprints
  apply List.map_congr_left
  intro p _
  rw [foldl_assocSet_get]
  simp [assocGet, Option.or_none]

theorem c2_single_batch_lookup_witness :
    (([⟨7, 1⟩] : List Fingerprint) ≠ [] ∧
      ([⟨7, 1⟩] : List Fingerprint).length ≤ 100) ∧
    findPotentialMatches [⟨7, 1⟩] [⟨1, 7, 10⟩] =
      (([⟨1, 7, 10⟩] : List StoredFingerprint).filter fun p =>
          decide (p.hashValue ∈ ([⟨7, 1⟩] : List Fingerprint).map
            Fingerprint.hash)).map
        fun p =>
          ⟨p.songId, p.timeOffset, (lastQueryTime [⟨7, 1⟩] p.hashValue).getD 0,
            p.timeOffset - (lastQueryTime [⟨7, 1⟩] p.hashValue).getD 0⟩ :=
  ⟨⟨List.cons_ne_nil _ _, by simp⟩,
    c2_single_batch_lookup [⟨7, 1⟩] [⟨1, 7, 10⟩] (List.cons_ne_nil _ _)
      (by simp)⟩

/-- C2 (counterexample): hash 7 occurs in the query at time offsets 1 and 2,
and the store holds one posting for it; the claim demands one match record
per (posting, query occurrence) pair — two records, with deltas 9 and 8 — but
the code produces a single record, paired with the last occurrence only. -/
theorem c2_counterexample :
    findPotentialMatches [⟨7, 1⟩, ⟨7, 2⟩] [⟨1, 7, 10⟩] = [⟨1, 10, 2, 8⟩] ∧
    (findPotentialMatches [⟨7, 1⟩, ⟨7, 2⟩] [⟨1, 7, 10⟩]).length ≠ 2 := by
  have h : findPotentialMatches [⟨7, 1⟩, ⟨7, 2⟩] [⟨1, 7, 10⟩] =
      [⟨1, 10, 2, 8⟩] := by
    unfold findPotentialMatches
    norm_num [toBatches, findMatchingFingerprints, assocSet, assocGet,
      List.find?_cons]
  exact ⟨h, by rw [h]; decide⟩

/-! ## Supporting lemmas: histogram and alignment scoring -/

theorem mem_assocSet {α β : Type} [DecidableEq α] (m : List (α × β)) (k : α)
    (v : β) (e : α × β) (he : e ∈ assocSet m k v) : e ∈ m ∨ e = (k, v) := by
  unfold assocSet at he
  by_cases h : (m.any fun x => x.1 = k) = true
  · rw [if_pos h] at he
    rcases List.mem_map.mp he with ⟨x, hx, hfx⟩
    by_cases hxk : x.1 = k
    · rw [if_pos hxk] at hfx
      exact Or.inr hfx.symm
    · rw [if_neg hxk] at hfx
      exact Or.inl (hfx ▸ hx)
  · rw [if_neg h] at he
    rcases List.mem_append.mp he with h1 | h1
    · exact Or.inl h1
    · exact Or.inr (List.mem_singleton.mp h1)

theorem map_fst_assocSet_of_any {α β : Type} [DecidableEq α]
    (m : List (α × β)) (k : α) (v : β) (h : (m.any fun e => e.1 = k) = true) :
    (assocSet m k v).map Prod.fst = m.map Prod.fst := by
  unfold assocSet
  rw [if_pos h, List.map_map]
  apply List.map_congr_left
  intro e _
  by_cases hek : e.1 = k
  · simp [hek]
  · simp [hek]

theorem keys_nodup_assocSet {α β : Type} [DecidableEq α] (m : List (α × β))
    (k : α) (v : β) (h : (m.map Prod.fst).Nodup) :
    ((assocSet m k v).map Prod.fst).Nodup := by
  by_cases hany : (m.any fun e => e.1 = k) = true
  · rw [map_fst_assocSet_of_any m k v hany]
    exact h
  · unfold assocSet
    rw [if_neg hany, List.map_append]
    rw [List.nodup_append]
    refine ⟨h, List.nodup_singleton k, ?_⟩
    intro a ha ha'
    rcases List.mem_map.mp ha with ⟨e, he, hfe⟩
    rcases List.mem_singleton.mp ha' with rfl
    apply hany
    rw [List.any_eq_true]
    exact ⟨e, he, by simpa using hfe⟩

theorem assocGet_of_mem_of_nodup {α β : Type} [DecidableEq α] :
    ∀ m : List (α × β), (m.map Prod.fst).Nodup → ∀ e ∈ m,
      assocGet m e.1 = some e.2 := by
  intro m
  induction m with
  | nil =>
    intro _ e he
    cases he
  | cons e0 es ih =>
    intro hnd e he
    rw [assocGet_cons]
    rcases List.mem_cons.mp he with he0 | hes
    · subst he0
      rw [if_pos rfl]
    · have hkey : e.1 ∈ es.map Prod.fst := List.mem_map.mpr ⟨e, hes, rfl⟩
      rw [List.map_cons, List.nodup_cons] at hnd
      rw [if_neg (fun hx : e0.1 = e.1 => hnd.1 (hx.symm ▸ hkey))]
      exact ih hnd.2 e hes

theorem hist_keys_nodup (tol : ℚ) : ∀ (deltas : List ℚ)
    (acc : List (ℚ × ℕ)), (acc.map Prod.fst).Nodup →
    ((deltas.foldl
        (fun h delta =>
          assocSet h (quantizeDelta tol delta)
            ((assocGet h (quantizeDelta tol delta)).getD 0 + 1))
        acc).map Prod.fst).Nodup := by
  intro deltas
  induction deltas with
  | nil => intro acc h; exact h
  | cons d rest ih =>
    intro acc h
    rw [List.foldl_cons]
    exact ih _ (keys_nodup_assocSet _ _ _ h)

theorem hist_get (tol : ℚ) : ∀ (deltas : List ℚ) (acc : List (ℚ × ℕ)) (b : ℚ),
    (assocGet
        (deltas.foldl
          (fun h delta =>
            assocSet h (quantizeDelta tol delta)
              ((assocGet h (quantizeDelta tol delta)).getD 0 + 1))
          acc) b).getD 0 =
      (assocGet acc b).getD 0 +
        (deltas.filter fun d => decide (quantizeDelta tol d = b)).length := by
  intro deltas
  induction deltas with
  | nil => intro acc b; simp
  | cons d rest ih =>
    intro acc b
    rw [List.foldl_cons, ih]
    by_cases hb : quantizeDelta tol d = b
    · subst hb
      rw [List.filter_cons_of_pos (by simp), assocGet_assocSet_self]
      simp only [Option.getD_some, List.length_cons]
      omega
    · rw [List.filter_cons_of_neg (by simpa using hb),
        assocGet_assocSet_ne _ _ _ _ fun hx => hb hx.symm]

theorem hist_count (deltas : List ℚ) (tol : ℚ) (e : ℚ × ℕ)
    (he : e ∈ createDeltaHistogram deltas tol) :
    e.2 = (deltas.filter fun d => decide (quantizeDelta tol d = e.1)).length := by
  have h1 : assocGet (createDeltaHistogram deltas tol) e.1 = some e.2 :=
    assocGet_of_mem_of_nodup _
      (hist_keys_nodup tol deltas [] (by simp)) e he
  have h2 := hist_get tol deltas [] e.1
  unfold createDeltaHistogram at h1
  rw [h1] at h2
  simpa [assocGet] using h2

theorem findBestAlignmentLoop_spec : ∀ (l : List (ℚ × ℕ)) (bd : ℚ) (mc : ℕ),
    (findBestAlignmentLoop l bd mc = (bd, mc) ∧ ∀ e ∈ l, e.2 ≤ mc) ∨
    (findBestAlignmentLoop l bd mc ∈ l ∧
      mc < (findBestAlignmentLoop l bd mc).2 ∧
      ∀ e ∈ l, e.2 ≤ (findBestAlignmentLoop l bd mc).2) := by
  intro l
  induction l with
  | nil => intro bd mc; exact Or.inl ⟨rfl, by simp⟩
  | cons hd rest ih =>
    intro bd mc
    match hd with
    | (delta, count) =>
      by_cases hlt : mc < count
      · rw [show findBestAlignmentLoop ((delta, count) :: rest) bd mc =
            findBestAlignmentLoop rest delta count from by
          simp [findBestAlignmentLoop, hlt]]
        rcases ih delta count with ⟨heq, hall⟩ | ⟨hmem, hgt, hall⟩
        · refine Or.inr ⟨heq ▸ List.mem_cons_self _ _, ?_, ?_⟩
          · rw [heq]
            exact hlt
          · intro e hee
            rcases List.mem_cons.mp hee with rfl | hee
            · rw [heq]
            · exact le_trans (hall e hee) (by rw [heq])
        · refine Or.inr ⟨List.mem_cons_of_mem _ hmem, lt_trans hlt hgt, ?_⟩
          intro e hee
          rcases List.mem_cons.mp hee with rfl | hee
          · exact le_of_lt hgt
          · exact hall e hee
      · rw [show findBestAlignmentLoop ((delta, count) :: rest) bd mc =
            findBestAlignmentLoop rest bd mc from by
          simp [findBestAlignmentLoop, hlt]]
        rcases ih bd mc with ⟨heq, hall⟩ | ⟨hmem, hgt, hall⟩
        · refine Or.inl ⟨heq, ?_⟩
          intro e hee
          rcases List.mem_cons.mp hee with rfl | hee
          · omega
          · exact hall e hee
        · refine Or.inr ⟨List.mem_cons_of_mem _ hmem, hgt, ?_⟩
          intro e hee
          rcases List.mem_cons.mp hee with rfl | hee
          · omega
          · exact hall e hee

theorem findBestAlignment_spec (histogram : List (ℚ × ℕ)) (bd : ℚ × ℕ)
    (h : findBestAlignment histogram = some bd) :
    bd ∈ histogram ∧ 5 ≤ bd.2 ∧ ∀ e ∈ histogram, e.2 ≤ bd.2 := by
  unfold findBestAlignment at h
  by_cases h5 : 5 ≤ (findBestAlignmentLoop histogram 0 0).2
  · rw [if_pos h5] at h
    cases h
    rcases findBestAlignmentLoop_spec histogram 0 0 with ⟨heq, _⟩ | ⟨hmem, _, hall⟩
    · rw [heq] at h5
      omega
    · exact ⟨hmem, h5, hall⟩
  · rw [if_neg h5] at h
    cases h

theorem quantize_close (d : ℚ) : |d - quantizeDelta (1 / 10) d| ≤ 1 / 10 := by
  unfold quantizeDelta jsRound
  have hd : d / (1 / 10 : ℚ) = 10 * d := by ring
  rw [hd]
  have h1 : (⌊10 * d + 1 / 2⌋ : ℚ) ≤ 10 * d + 1 / 2 := Int.floor_le _
  have h2 : 10 * d + 1 / 2 - 1 < (⌊10 * d + 1 / 2⌋ : ℚ) :=
    Int.sub_one_lt_floor _
  rw [abs_le]
  constructor
  · linarith
  · linarith

theorem length_filter_mono {α : Type} (l : List α) (p q : α → Bool)
    (h : ∀ x ∈ l, p x = true → q x = true) :
    (l.filter p).length ≤ (l.filter q).length := by
  induction l with
  | nil => simp
  | cons x xs ih =>
    have ih2 := ih fun y hy => h y (List.mem_cons_of_mem _ hy)
    by_cases hp : p x = true
    · rw [List.filter_cons_of_pos hp,
        List.filter_cons_of_pos (h x (List.mem_cons_self _ _) hp)]
      simpa using ih2
    · rw [List.filter_cons_of_neg (by simpa using hp)]
      by_cases hq : q x = true
      · rw [List.filter_cons_of_pos hq]
        exact le_trans ih2 (by simp)
      · rw [List.filter_cons_of_neg (by simpa using hq)]
        exact ih2

theorem mem_calculateAlignmentScores_aux :
    ∀ (gs : List (ℕ × List FingerprintMatch))
      (acc : List (ℕ × AlignmentScore)) (e : ℕ × AlignmentScore),
      e ∈ gs.foldl
          (fun acc g =>
            if g.2.length < 5 then acc
            else
              if 1 / 10 ≤ (calculateSingleAlignmentScore g.2).confidence then
                assocSet acc g.1 (calculateSingleAlignmentScore g.2)
              else acc)
          acc →
      e ∈ acc ∨ ∃ g ∈ gs, e = (g.1, calculateSingleAlignmentScore g.2) ∧
        5 ≤ g.2.length ∧
        1 / 10 ≤ (calculateSingleAlignmentScore g.2).confidence := by
  intro gs
  induction gs with
  | nil =>
    intro acc e he
    exact Or.inl he
  | cons g0 rest ih =>
    intro acc e he
    rw [List.foldl_cons] at he
    rcases ih _ e he with hacc | ⟨g, hg, hge⟩
    · by_cases h5 : g0.2.length < 5
      · rw [if_pos h5] at hacc
        exact Or.inl hacc
      · rw [if_neg h5] at hacc
        by_cases hc : 1 / 10 ≤ (calculateSingleAlignmentScore g0.2).confidence
        · rw [if_pos hc] at hacc
          rcases mem_assocSet _ _ _ _ hacc with h1 | h1
          · exact Or.inl h1
          · exact Or.inr ⟨g0, List.mem_cons_self _ _, h1, by omega, hc⟩
        · rw [if_neg hc] at hacc
          exact Or.inl hacc
    · exact Or.inr ⟨g, List.mem_cons_of_mem _ hg, hge⟩

theorem mem_calculateAlignmentScores (gs : List (ℕ × List FingerprintMatch))
    (e : ℕ × AlignmentScore) (h : e ∈ calculateAlignmentScores gs) :
    ∃ g ∈ gs, e = (g.1, calculateSingleAlignmentScore g.2) ∧
      5 ≤ g.2.length ∧
      1 / 10 ≤ (calculateSingleAlignmentScore g.2).confidence := by
  rcases mem_calculateAlignmentScores_aux gs [] e h with h1 | h1
  · cases h1
  · exact h1

/-- C1 (amended): a candidate group survives `calculateAlignmentScores` only
by binning its deltas with `bin = round(Δ/0.1)·0.1`, taking a mode bin
`(δ*, c)` (maximal count, `c` = the number of entries whose bin is `δ*`),
requiring the mode count `c ≥ 5` (not merely `aligned ≥ 5`) and
`confidence ≥ 0.1`; `aligned` is the count of entries with `|Δ − δ*| ≤ 0.1` —
at least the mode count, and possibly larger, rather than the mode bin count
itself — and `confidence = aligned / |group|`. -/
theorem c1_alignment_scoring (songMatches : List (ℕ × List FingerprintMatch))
    (sid : ℕ) (s : AlignmentScore)
    (h : (sid, s) ∈ calculateAlignmentScores songMatches) :
    ∃ g ∈ songMatches, g.1 = sid ∧ 5 ≤ g.2.length ∧
      s = calculateSingleAlignmentScore g.2 ∧
      ∃ bd : ℚ × ℕ,
        findBestAlignment
            (createDeltaHistogram (g.2.map FingerprintMatch.timeDelta)
              (1 / 10)) = some bd ∧
        bd ∈ createDeltaHistogram (g.2.map FingerprintMatch.timeDelta)
            (1 / 10) ∧
        (∀ e ∈ createDeltaHistogram (g.2.map FingerprintMatch.timeDelta)
            (1 / 10), e.2 ≤ bd.2) ∧
        bd.2 = ((g.2.map FingerprintMatch.timeDelta).filter fun d =>
            decide (quantizeDelta (1 / 10) d = bd.1)).length ∧
        5 ≤ bd.2 ∧
        s.alignedMatches = ((g.2.map FingerprintMatch.timeDelta).filter
            fun d => decide (|d - bd.1| ≤ 1 / 10)).length ∧
        bd.2 ≤ s.alignedMatches ∧
        s.confidence = (s.alignedMatches : ℚ) / (g.2.length : ℚ) ∧
        1 / 10 ≤ s.confidence := by
  rcases mem_calculateAlignmentScores songMatches (sid, s) h
    with ⟨g, hg, he, hlen, hconf⟩
  have hsid : g.1 = sid := (congrArg Prod.fst he).symm
  have hs : s = calculateSingleAlignmentScore g.2 := congrArg Prod.snd he
  refine ⟨g, hg, hsid, hlen, hs, ?_⟩
  cases halign : findBestAlignment
      (createDeltaHistogram (g.2.map FingerprintMatch.timeDelta) (1 / 10)) with
  | none =>
    exfalso
    have hzero : calculateSingleAlignmentScore g.2 = ⟨0, 0, 0⟩ := by
      simp only [calculateSingleAlignmentScore]
      rw [halign]
    rw [hzero] at hconf
    norm_num at hconf
  | some bd =>
    have hscore : calculateSingleAlignmentScore g.2 =
        ⟨((g.2.map FingerprintMatch.timeDelta).filter fun delta =>
            decide (|delta - bd.1| ≤ 1 / 10)).length,
          ((((g.2.map FingerprintMatch.timeDelta).filter fun delta =>
            decide (|delta - bd.1| ≤ 1 / 10)).length : ℕ) : ℚ) /
            (g.2.length : ℚ), bd.1⟩ := by
      simp only [calculateSingleAlignmentScore]
      rw [halign]
    rcases findBestAlignment_spec _ bd halign with ⟨hmem, h5, hmax⟩
    have hcount := hist_count (g.2.map FingerprintMatch.timeDelta) (1 / 10)
      bd hmem
    refine ⟨bd, rfl, hmem, hmax, hcount, h5, ?_, ?_, ?_, ?_⟩
    · rw [hs, hscore]
    · rw [hs, hscore, hcount]
      apply length_filter_mono
      intro x _ hx
      rw [decide_eq_true_eq] at hx
      rw [decide_eq_true_eq, ← hx]
      exact quantize_close x
    · rw [hs, hscore]
    · rw [hs]
      exact hconf

/-! ## Concrete evaluations for the alignment scorer -/

theorem quantizeDelta_zero : quantizeDelta (1 / 10) 0 = 0 := by
  unfold quantizeDelta jsRound
  norm_num

theorem quantizeDelta_8cs : quantizeDelta (1 / 10) (2 / 25) = 1 / 10 := by
  unfold quantizeDelta jsRound
  norm_num

theorem hist_five_zeros_one_8cs :
    createDeltaHistogram [0, 0, 0, 0, 0, 2 / 25] (1 / 10) =
      [(0, 5), (1 / 10, 1)] := by
  unfold createDeltaHistogram
  simp only [List.foldl_cons, List.foldl_nil, quantizeDelta_zero,
    quantizeDelta_8cs]
  norm_num [assocSet, assocGet, List.any_cons, List.any_nil, List.find?_cons,
    List.find?_nil, List.map_cons, List.map_nil]

theorem hist_five_zeros :
    createDeltaHistogram [0, 0, 0, 0, 0] (1 / 10) = [(0, 5)] := by
  unfold createDeltaHistogram
  simp only [List.foldl_cons, List.foldl_nil, quantizeDelta_zero]
  norm_num [assocSet, assocGet, List.any_cons, List.any_nil, List.find?_cons,
    List.find?_nil, List.map_cons, List.map_nil]

theorem best_five_zeros_one_8cs :
    findBestAlignment [((0 : ℚ), 5), ((1 : ℚ) / 10, 1)] = some (0, 5) := by
  norm_num [findBestAlignment, findBestAlignmentLoop]

theorem best_five_zeros :
    findBestAlignment [((0 : ℚ), 5)] = some (0, 5) := by
  norm_num [findBestAlignment, findBestAlignmentLoop]

theorem score_five_zeros_one_8cs :
    calculateSingleAlignmentScore
        [⟨1, 0, 0, 0⟩, ⟨1, 0, 0, 0⟩, ⟨1, 0, 0, 0⟩, ⟨1, 0, 0, 0⟩,
          ⟨1, 0, 0, 0⟩, ⟨1, 2 / 25, 0, 2 / 25⟩] = ⟨6, 1, 0⟩ := by
  simp only [calculateSingleAlignmentScore, List.map_cons, List.map_nil]
  rw [hist_five_zeros_one_8cs, best_five_zeros_one_8cs]
  have habs : |(2 : ℚ) / 25| ≤ 1 / 10 := by
    rw [abs_of_nonneg (by norm_num)]
    norm_num
  norm_num [List.filter_cons, AlignmentScore.mk.injEq, habs]

theorem score_five_zeros :
    calculateSingleAlignmentScore
        [⟨1, 0, 0, 0⟩, ⟨1, 0, 0, 0⟩, ⟨1, 0, 0, 0⟩, ⟨1, 0, 0, 0⟩,
          ⟨1, 0, 0, 0⟩] = ⟨5, 1, 0⟩ := by
  simp only [calculateSingleAlignmentScore, List.map_cons, List.map_nil]
  rw [hist_five_zeros, best_five_zeros]
  norm_num [List.filter_cons, AlignmentScore.mk.injEq]

/-- C1 (counterexample): a group of six matches, five with delta 0 and one
with delta 0.08, has mode bin 0 with count 5, yet the scorer reports
`alignedMatches = 6` and `confidence = 1` (0.08 lies within the tolerance of
the bin value 0 although it falls in bin 0.1), refuting
"`aligned` = the count of entries in the mode bin" (which would give 5 and
confidence 5/6). -/
theorem c1_counterexample :
    calculateSingleAlignmentScore
        [⟨1, 0, 0, 0⟩, ⟨1, 0, 0, 0⟩, ⟨1, 0, 0, 0⟩, ⟨1, 0, 0, 0⟩,
          ⟨1, 0, 0, 0⟩, ⟨1, 2 / 25, 0, 2 / 25⟩] = ⟨6, 1, 0⟩ ∧
    findBestAlignment
        (createDeltaHistogram
          (([⟨1, 0, 0, 0⟩, ⟨1, 0, 0, 0⟩, ⟨1, 0, 0, 0⟩, ⟨1, 0, 0, 0⟩,
            ⟨1, 0, 0, 0⟩, ⟨1, 2 / 25, 0, 2 / 25⟩] :
              List FingerprintMatch).map FingerprintMatch.timeDelta)
          (1 / 10)) = some (0, 5) ∧
    ((([⟨1, 0, 0, 0⟩, ⟨1, 0, 0, 0⟩, ⟨1, 0, 0, 0⟩, ⟨1, 0, 0, 0⟩,
        ⟨1, 0, 0, 0⟩, ⟨1, 2 / 25, 0, 2 / 25⟩] :
          List FingerprintMatch).map FingerprintMatch.timeDelta).filter
        fun d => decide (quantizeDelta (1 / 10) d = 0)).length = 5 := by
  refine ⟨score_five_zeros_one_8cs, ?_, ?_⟩
  · show findBestAlignment
        (createDeltaHistogram [0, 0, 0, 0, 0, 2 / 25] (1 / 10)) = some (0, 5)
    rw [hist_five_zeros_one_8cs]
    exact best_five_zeros_one_8cs
  · show (([0, 0, 0, 0, 0, 2 / 25] : List ℚ).filter
        fun d => decide (quantizeDelta (1 / 10) d = 0)).length = 5
    norm_num [List.filter_cons, quantizeDelta_zero, quantizeDelta_8cs]

theorem scores_single_group :
    calculateAlignmentScores
        [((1 : ℕ), [⟨1, 0, 0, 0⟩, ⟨1, 0, 0, 0⟩, ⟨1, 0, 0, 0⟩, ⟨1, 0, 0, 0⟩,
          ⟨1, 0, 0, 0⟩])] = [(1, ⟨5, 1, 0⟩)] := by
  unfold calculateAlignmentScores
  simp only [List.foldl_cons, List.foldl_nil]
  norm_num [score_five_zeros, assocSet, List.any_nil]

theorem c1_alignment_scoring_witness :
    ((1 : ℕ), (⟨5, 1, 0⟩ : AlignmentScore)) ∈
      calculateAlignmentScores
        [(1, [⟨1, 0, 0, 0⟩, ⟨1, 0, 0, 0⟩, ⟨1, 0, 0, 0⟩, ⟨1, 0, 0, 0⟩,
          ⟨1, 0, 0, 0⟩])] ∧
    (∃ g ∈ ([(1, [⟨1, 0, 0, 0⟩, ⟨1, 0, 0, 0⟩, ⟨1, 0, 0, 0⟩, ⟨1, 0, 0, 0⟩,
        ⟨1, 0, 0, 0⟩])] : List (ℕ × List FingerprintMatch)),
      g.1 = 1 ∧ 5 ≤ g.2.length ∧
      (⟨5, 1, 0⟩ : AlignmentScore) = calculateSingleAlignmentScore g.2 ∧
      ∃ bd : ℚ × ℕ,
        findBestAlignment
            (createDeltaHistogram (g.2.map FingerprintMatch.timeDelta)
              (1 / 10)) = some bd ∧
        bd ∈ createDeltaHistogram (g.2.map FingerprintMatch.timeDelta)
            (1 / 10) ∧
        (∀ e ∈ createDeltaHistogram (g.2.map FingerprintMatch.timeDelta)
            (1 / 10), e.2 ≤ bd.2) ∧
        bd.2 = ((g.2.map FingerprintMatch.timeDelta).filter fun d =>
            decide (quantizeDelta (1 / 10) d = bd.1)).length ∧
        5 ≤ bd.2 ∧
        (⟨5, 1, 0⟩ : AlignmentScore).alignedMatches =
          ((g.2.map FingerprintMatch.timeDelta).filter
            fun d => decide (|d - bd.1| ≤ 1 / 10)).length ∧
        bd.2 ≤ (⟨5, 1, 0⟩ : AlignmentScore).alignedMatches ∧
        (⟨5, 1, 0⟩ : AlignmentScore).confidence =
          (((⟨5, 1, 0⟩ : AlignmentScore).alignedMatches : ℚ) /
            (g.2.length : ℚ)) ∧
        1 / 10 ≤ (⟨5, 1, 0⟩ : AlignmentScore).confidence) := by
  have hmem : ((1 : ℕ), (⟨5, 1, 0⟩ : AlignmentScore)) ∈
      calculateAlignmentScores
        [(1, [⟨1, 0, 0, 0⟩, ⟨1, 0, 0, 0⟩, ⟨1, 0, 0, 0⟩, ⟨1, 0, 0, 0⟩,
          ⟨1, 0, 0, 0⟩])] := by
    rw [scores_single_group]
    exact List.mem_singleton.mpr rfl
  exact ⟨hmem, c1_alignment_scoring _ 1 ⟨5, 1, 0⟩ hmem⟩

/-! ## Supporting lemmas: best-match selection -/

theorem findBestMatchLoop_none (totalQ : ℕ) :
    ∀ (l : List (ℕ × AlignmentScore)) (best : Option MatchResult) (high : ℚ),
      findBestMatchLoop totalQ l best high = none →
      best = none ∧ ∀ e ∈ l, combinedScore totalQ e.2 ≤ high := by
  intro l
  induction l with
  | nil =>
    intro best high hb
    exact ⟨hb, by simp⟩
  | cons hd rest ih =>
    intro best high hb
    match hd with
    | (sid0, sc0) =>
      by_cases hlt : high < combinedScore totalQ sc0
      · rw [show findBestMatchLoop totalQ ((sid0, sc0) :: rest) best high =
            findBestMatchLoop totalQ rest
              (some ⟨sid0, sc0.confidence, sc0.alignedMatches, totalQ, 0⟩)
              (combinedScore totalQ sc0) from by
          simp [findBestMatchLoop, hlt]] at hb
        rcases ih _ _ hb with ⟨hc, _⟩
        cases hc
      · rw [show findBestMatchLoop totalQ ((sid0, sc0) :: rest) best high =
            findBestMatchLoop totalQ rest best high from by
          simp [findBestMatchLoop, hlt]] at hb
        rcases ih _ _ hb with ⟨hc, hall⟩
        refine ⟨hc, ?_⟩
        intro e hee
        rcases List.mem_cons.mp hee with rfl | hee
        · exact le_of_not_lt hlt
        · exact hall e hee

theorem findBestMatchLoop_some (totalQ : ℕ) :
    ∀ (l : List (ℕ × AlignmentScore)) (best : Option MatchResult) (high : ℚ)
      (r : MatchResult),
      findBestMatchLoop totalQ l best high = some r →
      (best = some r ∧ ∀ e ∈ l, combinedScore totalQ e.2 ≤ high) ∨
      (∃ pre sid sc post, l = pre ++ (sid, sc) :: post ∧
        r = ⟨sid, sc.confidence, sc.alignedMatches, totalQ, 0⟩ ∧
        high < combinedScore totalQ sc ∧
        (∀ e ∈ pre,
          combinedScore totalQ e.2 < combinedScore totalQ sc) ∧
        (∀ e ∈ post,
          combinedScore totalQ e.2 ≤ combinedScore totalQ sc)) := by
  intro l
  induction l with
  | nil =>
    intro best high r hb
    exact Or.inl ⟨hb, by simp⟩
  | cons hd rest ih =>
    intro best high r hb
    match hd with
    | (sid0, sc0) =>
      by_cases hlt : high < combinedScore totalQ sc0
      · rw [show findBestMatchLoop totalQ ((sid0, sc0) :: rest) best high =
            findBestMatchLoop totalQ rest
              (some ⟨sid0, sc0.confidence, sc0.alignedMatches, totalQ, 0⟩)
              (combinedScore totalQ sc0) from by
          simp [findBestMatchLoop, hlt]] at hb
        rcases ih _ _ _ hb with ⟨hc, hall⟩ | ⟨pre, sid, sc, post, hsplit, hr, hgt, hpre, hpost⟩
        · refine Or.inr ⟨[], sid0, sc0, rest, by simp, (Option.some_inj.mp hc).symm,
            hlt, by simp, hall⟩
        · refine Or.inr ⟨(sid0, sc0) :: pre, sid, sc, post, by rw [hsplit]; rfl,
            hr, lt_trans hlt hgt, ?_, hpost⟩
          intro e hee
          rcases List.mem_cons.mp hee with rfl | hee
          · exact hgt
          · exact hpre e hee
      · rw [show findBestMatchLoop totalQ ((sid0, sc0) :: rest) best high =
            findBestMatchLoop totalQ rest best high from by
          simp [findBestMatchLoop, hlt]] at hb
        rcases ih _ _ _ hb with ⟨hc, hall⟩ | ⟨pre, sid, sc, post, hsplit, hr, hgt, hpre, hpost⟩
        · refine Or.inl ⟨hc, ?_⟩
          intro e hee
          rcases List.mem_cons.mp hee with rfl | hee
          · exact le_of_not_lt hlt
          · exact hall e hee
        · refine Or.inr ⟨(sid0, sc0) :: pre, sid, sc, post, by rw [hsplit]; rfl,
            hr, hgt, ?_, hpost⟩
          intro e hee
          rcases List.mem_cons.mp hee with rfl | hee
          · exact lt_of_le_of_lt (le_of_not_lt hlt) hgt
          · exact hpre e hee

/-- C8 (amended): among candidates that pass the thresholds, the matcher
returns the one with the greatest combined score
`confidence · (aligned / |Q|)`, provided that score strictly exceeds 0; on a
tie the candidate appearing FIRST in map insertion order wins (earlier
candidates must be strictly exceeded to be displaced), and neither the
aligned count nor the recording id is consulted. -/
theorem c8_best_match (alignmentScores : List (ℕ × AlignmentScore))
    (totalQueryFingerprints : ℕ) :
    (∀ r : MatchResult,
      findBestMatch alignmentScores totalQueryFingerprints = some r →
      ∃ pre sid sc post, alignmentScores = pre ++ (sid, sc) :: post ∧
        r = ⟨sid, sc.confidence, sc.alignedMatches, totalQueryFingerprints, 0⟩ ∧
        0 < combinedScore totalQueryFingerprints sc ∧
        (∀ e ∈ pre, combinedScore totalQueryFingerprints e.2 <
          combinedScore totalQueryFingerprints sc) ∧
        (∀ e ∈ post, combinedScore totalQueryFingerprints e.2 ≤
          combinedScore totalQueryFingerprints sc)) ∧
    (findBestMatch alignmentScores totalQueryFingerprints = none →
      ∀ e ∈ alignmentScores, combinedScore totalQueryFingerprints e.2 ≤ 0) := by
  constructor
  · intro r hr
    rcases findBestMatchLoop_some totalQueryFingerprints alignmentScores none 0 r hr
      with ⟨hc, _⟩ | hsplit
    · cases hc
    · exact hsplit
  · intro hn
    exact (findBestMatchLoop_none totalQueryFingerprints alignmentScores none 0 hn).2

theorem c8_best_match_witness :
    findBestMatch [((1 : ℕ), (⟨5, 1, 0⟩ : AlignmentScore))] 50 =
      some ⟨1, 1, 5, 50, 0⟩ ∧
    (∃ pre sid sc post,
      ([((1 : ℕ), (⟨5, 1, 0⟩ : AlignmentScore))] :
          List (ℕ × AlignmentScore)) = pre ++ (sid, sc) :: post ∧
      (⟨1, 1, 5, 50, 0⟩ : MatchResult) =
        ⟨sid, sc.confidence, sc.alignedMatches, 50, 0⟩ ∧
      0 < combinedScore 50 sc ∧
      (∀ e ∈ pre, combinedScore 50 e.2 < combinedScore 50 sc) ∧
      (∀ e ∈ post, combinedScore 50 e.2 ≤ combinedScore 50 sc)) := by
  have h : findBestMatch [((1 : ℕ), (⟨5, 1, 0⟩ : AlignmentScore))] 50 =
      some ⟨1, 1, 5, 50, 0⟩ := by
    norm_num [findBestMatch, findBestMatchLoop, combinedScore]
  exact ⟨h, (c8_best_match [((1 : ℕ), (⟨5, 1, 0⟩ : AlignmentScore))] 50).1
    ⟨1, 1, 5, 50, 0⟩ h⟩

/-- C8 (counterexample): two candidates with EQUAL combined scores
(`1 · 5/50 = 1/2 · 10/50 = 1/10`); the claim's tie-breaks (greater aligned
count 10 > 5, then smaller recording id 1 < 2) both pick recording 1, but the
code keeps the first-inserted candidate, recording 2. -/
theorem c8_counterexample :
    findBestMatch [(2, ⟨5, 1, 0⟩), (1, ⟨10, 1 / 2, 0⟩)] 50 =
      some ⟨2, 1, 5, 50, 0⟩ ∧
    combinedScore 50 ⟨5, 1, 0⟩ = combinedScore 50 ⟨10, 1 / 2, 0⟩ ∧
    (5 : ℕ) < 10 ∧ (1 : ℕ) < 2 := by
  refine ⟨?_, ?_, by norm_num, by norm_num⟩
  · norm_num [findBestMatch, findBestMatchLoop, combinedScore]
  · norm_num [combinedScore]

/-! ## Supporting lemmas: peak picker -/

theorem isLocalMaximum_iff (M : List (List ℚ)) (t f : ℕ) :
    isLocalMaximum M t f = true ↔ StrictLocalMax M t f := by
  simp only [isLocalMaximum, List.all_eq_true]
  constructor
  · intro hall nt hnt nf hnf hne h1 h2 h3 h4
    have hdti : nt + 10 - t ∈ List.range 21 := by
      rw [List.mem_range]
      omega
    have hdfi : nf + 10 - f ∈ List.range 21 := by
      rw [List.mem_range]
      omega
    have hbody := hall _ hdti _ hdfi
    by_cases hcen : (((nt + 10 - t : ℕ) : ℤ) - 10 = 0 ∧
        ((nf + 10 - f : ℕ) : ℤ) - 10 = 0)
    · exfalso
      apply hne
      have hteq : nt = t := by omega
      have hfeq : nf = f := by omega
      rw [hteq, hfeq]
    · rw [if_neg hcen] at hbody
      have hguard : 0 ≤ (t : ℤ) + (((nt + 10 - t : ℕ) : ℤ) - 10) ∧
          (t : ℤ) + (((nt + 10 - t : ℕ) : ℤ) - 10) < (M.length : ℤ) ∧
          0 ≤ (f : ℤ) + (((nf + 10 - f : ℕ) : ℤ) - 10) ∧
          (f : ℤ) + (((nf + 10 - f : ℕ) : ℤ) - 10) <
            ((M.getD 0 []).length : ℤ) := by
        refine ⟨by omega, by omega, by omega, by omega⟩
      rw [if_pos hguard, decide_eq_true_eq] at hbody
      have hntn : ((t : ℤ) + (((nt + 10 - t : ℕ) : ℤ) - 10)).toNat = nt := by
        omega
      have hnfn : ((f : ℤ) + (((nf + 10 - f : ℕ) : ℤ) - 10)).toNat = nf := by
        omega
      rw [hntn, hnfn] at hbody
      exact hbody
  · intro hslm dti hdti
    intro dfi hdfi
    rw [List.mem_range] at hdti hdfi
    by_cases hcen : ((dti : ℤ) - 10 = 0 ∧ (dfi : ℤ) - 10 = 0)
    · rw [if_pos hcen]
    · rw [if_neg hcen]
      by_cases hguard : 0 ≤ (t : ℤ) + ((dti : ℤ) - 10) ∧
          (t : ℤ) + ((dti : ℤ) - 10) < (M.length : ℤ) ∧
          0 ≤ (f : ℤ) + ((dfi : ℤ) - 10) ∧
          (f : ℤ) + ((dfi : ℤ) - 10) < ((M.getD 0 []).length : ℤ)
      · rw [if_pos hguard, decide_eq_true_eq]
        apply hslm
        · omega
        · omega
        · intro hp
          apply hcen
          have h1 := congrArg Prod.fst hp
          have h2 := congrArg Prod.snd hp
          simp only at h1 h2
          constructor
          · omega
          · omega
        · omega
        · omega
        · omega
        · omega
      · rw [if_neg hguard]

theorem peak_time_inj (t t' : ℕ)
    (h : ((t : ℚ) * 1024) / 22050 = ((t' : ℚ) * 1024) / 22050) : t = t' := by
  field_simp at h
  exact_mod_cast h

theorem peak_freq_inj (bins f f' : ℕ) (hbins : 2 ≤ bins)
    (h : ((f : ℚ) * 22050) / (2 * ((bins : ℚ) - 1)) =
      ((f' : ℚ) * 22050) / (2 * ((bins : ℚ) - 1))) : f = f' := by
  have hb : ((bins : ℚ) - 1) ≠ 0 := by
    have h2 : (2 : ℚ) ≤ (bins : ℚ) := by exact_mod_cast hbins
    intro hx
    rw [sub_eq_zero] at hx
    rw [hx] at h2
    norm_num at h2
  field_simp [hb] at h
  exact_mod_cast h

theorem mem_peakCandidates (M : List (List ℚ)) (p : Peak) :
    p ∈ peakCandidates M ↔
      ∃ t, t < M.length ∧ ∃ f, f < (M.getD 0 []).length ∧
        (15 ≤ spectrogramCell M t f ∧ isLocalMaximum M t f = true) ∧
        p = peakOfCell M (M.getD 0 []).length t f := by
  unfold peakCandidates
  simp only [List.mem_flatMap, List.mem_range, List.mem_filterMap,
    Option.ite_none_right_eq_some, Option.some.injEq]
  constructor
  · rintro ⟨t, ht, f, hf, hcond, hp⟩
    exact ⟨t, ht, f, hf, hcond, hp.symm⟩
  · rintro ⟨t, ht, f, hf, hcond, hp⟩
    exact ⟨t, ht, f, hf, hcond, hp.symm⟩

/-- C4: given the candidate cap is not hit, a cell `(t, f)` appears among the
peaks returned by `findPeaks` exactly when its magnitude is at least
`A_MIN = 15` and it is a strict local maximum of the closed square
`[t−10 .. t+10] × [f−10 .. f+10]` — every in-matrix neighbor strictly
smaller, an equal or greater neighbor disqualifying it, and cells outside the
matrix absent rather than zero. -/
theorem c4_peak_picker (M : List (List ℚ)) (t f : ℕ) (peaks : List Peak)
    (hfp : findPeaks M = .ok peaks)
    (hbins : 2 ≤ (M.getD 0 []).length)
    (ht : t < M.length) (hf : f < (M.getD 0 []).length)
    (hcap : (peakCandidates M).length ≤ 10000) :
    peakOfCell M (M.getD 0 []).length t f ∈ peaks ↔
      (15 ≤ spectrogramCell M t f ∧ StrictLocalMax M t f) := by
  have hok : peaks = (insertionSort magnitudeDesc (peakCandidates M)).take 10000 := by
    cases M with
    | nil => simp [findPeaks] at hfp
    | cons m0 ms =>
      simp only [findPeaks, Except.ok.injEq] at hfp
      exact hfp.symm
  subst hok
  have hperm := insertionSort_perm magnitudeDesc (peakCandidates M)
  have hlen : (insertionSort magnitudeDesc (peakCandidates M)).length ≤ 10000 := by
    rw [hperm.length_eq]
    exact hcap
  rw [List.take_of_length_le hlen, mem_insertionSort, mem_peakCandidates]
  constructor
  · rintro ⟨t', ht', f', hf', ⟨hmag, hlm⟩, hp⟩
    have htime := congrArg Peak.time hp
    have hfreq := congrArg Peak.frequency hp
    simp only [peakOfCell] at htime hfreq
    have hteq : t = t' := peak_time_inj t t' htime
    have hfeq : f = f' := peak_freq_inj _ f f' hbins hfreq
    subst hteq
    subst hfeq
    exact ⟨hmag, (isLocalMaximum_iff M t f).mp hlm⟩
  · rintro ⟨hmag, hslm⟩
    exact ⟨t, ht, f, hf, ⟨hmag, (isLocalMaximum_iff M t f).mpr hslm⟩, rfl⟩

theorem c4_peak_picker_witness :
    (findPeaks [[20, 0]] = Except.ok [peakOfCell [[20, 0]] 2 0 0] ∧
      (peakCandidates [[20, 0]]).length ≤ 10000) ∧
    (peakOfCell [[20, 0]] 2 0 0 ∈ [peakOfCell [[20, 0]] 2 0 0] ↔
      (15 ≤ spectrogramCell [[20, 0]] 0 0 ∧ StrictLocalMax [[20, 0]] 0 0)) := by
  have hfp : findPeaks [[20, 0]] = Except.ok [peakOfCell [[20, 0]] 2 0 0] := rfl
  refine ⟨⟨hfp, by decide⟩, ?_⟩
  exact c4_peak_picker [[20, 0]] 0 0 _ hfp (by decide) (by decide) (by decide)
    (by decide)

/-! ## Supporting lemmas: identification service -/

theorem identifySongBody_spec (env : IdentifyEnv) :
    (∃ e, identifySongBody env = .error e) ∨
    identifySongBody env = .ok ⟨false, none, none, none, none, env.elapsed⟩ ∨
    (∃ (m : MatchResult) (song : SongRecord), identifySongBody env =
      .ok ⟨true, some song, some m.confidence, some m.alignedMatches,
        some m.totalQueryFingerprints, env.elapsed⟩) := by
  unfold identifySongBody
  by_cases hf : env.fileExists = false
  · rw [if_pos hf]
    exact Or.inl ⟨_, rfl⟩
  · rw [if_neg hf]
    cases env.audioDuration with
    | error e => exact Or.inl ⟨e, rfl⟩
    | ok d =>
      cases env.queryFingerprints with
      | error e => exact Or.inl ⟨e, rfl⟩
      | ok qfs =>
        dsimp only
        by_cases hq : qfs.length = 0
        · rw [if_pos hq]
          exact Or.inl ⟨_, rfl⟩
        · rw [if_neg hq]
          cases env.matcherOutcome with
          | error e => exact Or.inl ⟨e, rfl⟩
          | ok mo =>
            cases mo with
            | none => exact Or.inr (Or.inl rfl)
            | some m =>
              dsimp only
              cases env.songLookup m.songId with
              | error e => exact Or.inl ⟨e, rfl⟩
              | ok so =>
                cases so with
                | none => exact Or.inl ⟨_, rfl⟩
                | some song => exact Or.inr (Or.inr ⟨m, song, rfl⟩)

theorem identifySong_success_iff (env : IdentifyEnv) :
    (identifySong env).success = true ↔
      env.fileExists = true ∧ (∃ d, env.audioDuration = .ok d) ∧
      (∃ qfs, env.queryFingerprints = .ok qfs ∧ qfs.length ≠ 0) ∧
      (∃ m, env.matcherOutcome = .ok (some m) ∧
        ∃ song, env.songLookup m.songId = .ok (some song)) := by
  unfold identifySong identifySongBody
  by_cases hf : env.fileExists = false
  · rw [if_pos hf]
    simp [hf]
  · rw [if_neg hf]
    have hft : env.fileExists = true := by
      cases hfe : env.fileExists
      · exact absurd hfe hf
      · rfl
    cases had : env.audioDuration with
    | error e => simp [had]
    | ok d =>
      cases hqf : env.queryFingerprints with
      | error e => simp [hqf]
      | ok qfs =>
        dsimp only
        by_cases hq : qfs.length = 0
        · rw [if_pos hq]
          have hnil : qfs = [] := List.length_eq_zero.mp hq
          subst hnil
          simp [hft, hqf]
        · rw [if_neg hq]
          cases hmo : env.matcherOutcome with
          | error e => simp [hmo]
          | ok mo =>
            cases mo with
            | none => simp [hmo]
            | some m =>
              dsimp only
              cases hsl : env.songLookup m.songId with
              | error e => simp [hft, had, hqf, hq, hmo, hsl]
              | ok so =>
                cases so with
                | none => simp [hft, had, hqf, hq, hmo, hsl]
                | some song =>
                  simp [hft, had, hqf, hq, hmo, hsl]
                  intro hnil
                  exact hq (by rw [hnil]; rfl)

theorem identifySong_failure_bare (env : IdentifyEnv)
    (hs : (identifySong env).success = false) :
    identifySong env = ⟨false, none, none, none, none, env.elapsed⟩ := by
  rcases identifySongBody_spec env with ⟨e, he⟩ | hok | ⟨m, song, hok⟩
  · simp [identifySong, he]
  · simp [identifySong, hok]
  · rw [identifySong, hok] at hs
    cases hs

/-- C10: `ShazamService.identifySong` never rejects; a missing file, a failed
duration probe, a fingerprinting failure, zero fingerprints, a matcher or
store failure, or a failed song lookup all produce
`{ success := false, processingTime }` — the very value an ordinary no-match
outcome produces, with no further information. -/
theorem c10_identify_swallows_errors (env : IdentifyEnv)
    (h : env.fileExists = false ∨
      (∃ e, env.audioDuration = .error e) ∨
      (∃ e, env.queryFingerprints = .error e) ∨
      env.queryFingerprints = .ok [] ∨
      (∃ e, env.matcherOutcome = .error e) ∨
      (∃ m e, env.matcherOutcome = .ok (some m) ∧
        env.songLookup m.songId = .error e) ∨
      (∃ m, env.matcherOutcome = .ok (some m) ∧
        env.songLookup m.songId = .ok none)) :
    identifySong env = ⟨false, none, none, none, none, env.elapsed⟩ ∧
    ∀ env2 : IdentifyEnv, (identifySong env2).success = false →
      identifySong env2 = ⟨false, none, none, none, none, env2.elapsed⟩ := by
  refine ⟨?_, fun env2 hs => identifySong_failure_bare env2 hs⟩
  apply identifySong_failure_bare
  cases hsucc : (identifySong env).success with
  | false => rfl
  | true =>
    exfalso
    rcases (identifySong_success_iff env).mp hsucc with
      ⟨hft, ⟨d, hd⟩, ⟨qfs, hqf, hqn⟩, ⟨m, hmo, song, hsl⟩⟩
    rcases h with h | ⟨e, h⟩ | ⟨e, h⟩ | h | ⟨e, h⟩ | ⟨m2, e, hm2, h⟩ |
      ⟨m2, hm2, h⟩
    · rw [h] at hft
      cases hft
    · rw [h] at hd
      cases hd
    · rw [h] at hqf
      cases hqf
    · rw [h] at hqf
      have : qfs = [] := (Except.ok.injEq _ _).mp hqf.symm
      rw [this] at hqn
      exact hqn rfl
    · rw [h] at hmo
      cases hmo
    · rw [hm2] at hmo
      have : m2 = m := by
        have := (Except.ok.injEq _ _).mp hmo
        exact Option.some_inj.mp this
      rw [this] at h
      rw [h] at hsl
      cases hsl
    · rw [hm2] at hmo
      have : m2 = m := by
        have := (Except.ok.injEq _ _).mp hmo
        exact Option.some_inj.mp this
      rw [this] at h
      rw [h] at hsl
      cases (Except.ok.injEq _ _).mp hsl

theorem c10_identify_swallows_errors_witness :
    ((⟨false, .ok 0, .ok [], .ok none, fun _ => .ok none, 5⟩ :
        IdentifyEnv).fileExists = false ∨
      (∃ e, (⟨false, .ok 0, .ok [], .ok none, fun _ => .ok none, 5⟩ :
        IdentifyEnv).audioDuration = .error e) ∨
      (∃ e, (⟨false, .ok 0, .ok [], .ok none, fun _ => .ok none, 5⟩ :
        IdentifyEnv).queryFingerprints = .error e) ∨
      (⟨false, .ok 0, .ok [], .ok none, fun _ => .ok none, 5⟩ :
        IdentifyEnv).queryFingerprints = .ok [] ∨
      (∃ e, (⟨false, .ok 0, .ok [], .ok none, fun _ => .ok none, 5⟩ :
        IdentifyEnv).matcherOutcome = .error e) ∨
      (∃ m e, (⟨false, .ok 0, .ok [], .ok none, fun _ => .ok none, 5⟩ :
        IdentifyEnv).matcherOutcome = .ok (some m) ∧
        (⟨false, .ok 0, .ok [], .ok none, fun _ => .ok none, 5⟩ :
          IdentifyEnv).songLookup m.songId = .error e) ∨
      (∃ m, (⟨false, .ok 0, .ok [], .ok none, fun _ => .ok none, 5⟩ :
        IdentifyEnv).matcherOutcome = .ok (some m) ∧
        (⟨false, .ok 0, .ok [], .ok none, fun _ => .ok none, 5⟩ :
          IdentifyEnv).songLookup m.songId = .ok none)) ∧
    (identifySong ⟨false, .ok 0, .ok [], .ok none, fun _ => .ok none, 5⟩ =
        ⟨false, none, none, none, none, 5⟩ ∧
      ∀ env2 : IdentifyEnv, (identifySong env2).success = false →
        identifySong env2 = ⟨false, none, none, none, none, env2.elapsed⟩) :=
  ⟨Or.inl rfl,
    c10_identify_swallows_errors
      ⟨false, .ok 0, .ok [], .ok none, fun _ => .ok none, 5⟩ (Or.inl rfl)⟩

end Sonic
